import Mathlib

/-!
# Verification of the grid navigation and backtracking planner

Shallow embedding of the navigation core of
`real_time_map_and_nav_pynn.py`: the synchronous navigation loop
(`run_navigation_loop`), the Manhattan nearest-cell selection
(`manhattan_nearest_cell_to_target`) and the command derivation
(`direction_from_cells`).  Spike-network construction, file output and
simulator calls are excluded glue, per the specification's scope.

Coordinates and linear indices are modelled as `Int` (Python integers);
Python's floor division `//` and floor modulo `%` are `Int.fdiv` and
`Int.fmod`.  The output map is a function `Int → Int → Int`
(row `y`, column `x` ↦ classification code).  A Python `ValueError`
raised by `direction_from_cells` is modelled by an `errored` flag that
freezes the state at the point of the raise.
-/

set_option maxRecDepth 1000000

namespace RTNav

/-- Grid/navigation configuration: dimensions, start and end cells
(0-indexed coordinates) and the 1-based linear indices of obstacles,
mirroring the module-level experiment configuration of the script. -/
structure Config where
  xlength : Int
  ylength : Int
  xinit : Int
  yinit : Int
  xend : Int
  yend : Int
  obstacles : List Int
deriving Repr, DecidableEq

/-- `maxRepeatedIteration = 3`: how many repeated iterations of searching
cells is considered a dead end. -/
def maxRepeatedIteration : Nat := 3

/-- The absolute safety cap on `iterationsRepeated` (the literal `200`
at the loop-termination guard of `run_navigation_loop`). -/
def safetyCap : Nat := 200

/-- State of the navigation loop.  The fields up to `finalMap` are the
Python locals of `run_navigation_loop`; `errored` models a raised
`ValueError` from `direction_from_cells`.  `commands`, `trace` and
`deadEnds` are ghost history variables: the sequence of emitted commands,
the sequence of occupied cells, and the number of times the dead-end
branch was entered.  They record values the Python code computes
(`command`, `(cellX, cellY)`) or events it executes, without altering
the transition. -/
structure NavState where
  cellX : Int
  cellY : Int
  lastCellX : Int
  lastCellY : Int
  robotPath : List Int
  backtracking : Bool
  iterationsRepeated : Nat
  finish : Bool
  unachievable : Bool
  errored : Bool
  finalMap : Int → Int → Int
  commands : List Int
  trace : List (Int × Int)
  deadEnds : Nat

/-- Point update of the output map (`final_map_state[y, x] = v`). -/
def mapSet (m : Int → Int → Int) (y x v : Int) : Int → Int → Int :=
  fun y' x' => if y' = y ∧ x' = x then v else m y' x'

/-- The 1-based linear index `y*width + x + 1` of a cell. -/
def encodeId (cfg : Config) (x y : Int) : Int :=
  y * cfg.xlength + x + 1

/-- Decoding of a 1-based linear index back to coordinates, as done by
the backtracking branch: `((id-1) % xlength, (id-1) // xlength)` with
Python floor modulo / floor division. -/
def decodeCell (cfg : Config) (id : Int) : Int × Int :=
  ((id - 1).fmod cfg.xlength, (id - 1).fdiv cfg.xlength)

/-- Manhattan distance `abs(cell[0]-target[0]) + abs(cell[1]-target[1])`. -/
def mdist (target cell : Int × Int) : Int :=
  |cell.1 - target.1| + |cell.2 - target.2|

/-- Accumulator loop of `manhattan_nearest_cell_to_target`: `acc` is
`nearest_cells`, `nd` is `nearest_distance` (initially `-1`). -/
def mnGo (target : Int × Int) : List (Int × Int) → List (Int × Int) → Int → List (Int × Int)
  | [], acc, _ => acc
  | cell :: rest, acc, nd =>
      let distance := mdist target cell
      if nd = -1 ∨ distance ≤ nd then
        if distance = nd then mnGo target rest (acc ++ [cell]) distance
        else mnGo target rest [cell] distance
      else mnGo target rest acc nd

/-- `manhattan_nearest_cell_to_target`: the cells of `cells` with the
nearest Manhattan distance to `target`. -/
def manhattan_nearest_cell_to_target (target : Int × Int) (cells : List (Int × Int)) :
    List (Int × Int) :=
  mnGo target cells [] (-1)

/-- `direction_from_cells`: movement command from `last_cell` to
`next_cell` (0 = top, 1 = left, 2 = right, 3 = bottom); `none` models the
`ValueError` raised on a non-adjacent pair. -/
def direction_from_cells (last_cell next_cell : Int × Int) : Option Int :=
  if next_cell.2 = last_cell.2 - 1 ∧ next_cell.1 = last_cell.1 then some 0
  else if next_cell.1 = last_cell.1 - 1 ∧ next_cell.2 = last_cell.2 then some 1
  else if next_cell.1 = last_cell.1 + 1 ∧ next_cell.2 = last_cell.2 then some 2
  else if next_cell.2 = last_cell.2 + 1 ∧ next_cell.1 = last_cell.1 then some 3
  else none

/-- The in-bounds neighbour candidates of `(cellX, cellY)` in the fixed
scan order Up, Left, Right, Down (the `for direction in range(4)` loop;
out-of-bounds directions are skipped). -/
def scanCandidates (cfg : Config) (cellX cellY : Int) : List (Int × Int) :=
  (if 0 ≤ cellY - 1 then [(cellX, cellY - 1)] else [])
    ++ (if 0 ≤ cellX - 1 then [(cellX - 1, cellY)] else [])
    ++ (if cellX + 1 < cfg.xlength then [(cellX + 1, cellY)] else [])
    ++ (if cellY + 1 < cfg.ylength then [(cellX, cellY + 1)] else [])

/-- Neighbour classification pass: walks the candidate list, collects
`freeCells` in order, and performs the map writes (`6` for obstacles,
`5` for free cells still at `0`).  The Python `obstacleCells` list is
not returned: it is never read after being built. -/
def processNeighbours (cfg : Config) (robotPath : List Int) (backtracking : Bool) :
    List (Int × Int) → (Int → Int → Int) → List (Int × Int) × (Int → Int → Int)
  | [], m => ([], m)
  | (nx, ny) :: rest, m =>
      let position := ny * cfg.xlength + nx + 1
      if position ∈ cfg.obstacles then
        processNeighbours cfg robotPath backtracking rest (mapSet m ny nx 6)
      else if position ∉ robotPath ∧ backtracking = false then
        let m' := if m ny nx = 0 then mapSet m ny nx 5 else m
        let pr := processNeighbours cfg robotPath backtracking rest m'
        ((nx, ny) :: pr.1, pr.2)
      else
        processNeighbours cfg robotPath backtracking rest m

/-- The `freeCells` list computed at the top of a loop iteration. -/
def freeCellsOf (cfg : Config) (s : NavState) : List (Int × Int) :=
  (processNeighbours cfg s.robotPath s.backtracking
    (scanCandidates cfg s.cellX s.cellY) s.finalMap).1

/-- Steps 3–5 of an iteration: derive the command, update
previous/current cell, append the new linear index to the path, mark
crossroad/arrival cells, do the end-of-loop counter increment and the
200-step cap.  `none` from `direction_from_cells` freezes the state with
`errored := true` (the Python `raise`). -/
def commitMove (cfg : Config) (s : NavState) (numFree : Nat) (nextX nextY : Int) : NavState :=
  match direction_from_cells (s.cellX, s.cellY) (nextX, nextY) with
  | none => { s with errored := true }
  | some command =>
      let m3 := if 1 < numFree then mapSet s.finalMap s.cellY s.cellX 4 else s.finalMap
      let m4 :=
        if nextX = cfg.xend ∧ nextY = cfg.yend then mapSet m3 nextY nextX 2
        else if m3 nextY nextX = 1 ∨ m3 nextY nextX = 2 then m3
        else mapSet m3 nextY nextX 3
      let r2 := s.iterationsRepeated + 1
      { s with
          lastCellX := s.cellX, lastCellY := s.cellY,
          cellX := nextX, cellY := nextY,
          robotPath := s.robotPath ++ [nextY * cfg.xlength + nextX + 1],
          finalMap := m4,
          finish := if nextX = cfg.xend ∧ nextY = cfg.yend then true else s.finish,
          unachievable := if safetyCap ≤ r2 then true else s.unachievable,
          iterationsRepeated := r2,
          commands := s.commands ++ [command],
          trace := s.trace ++ [(nextX, nextY)] }

/-- The branch taken when `freeCells` is non-empty: pick the last of the
nearest cells, mark the current cell as a path step unless it is
start/end, and commit the move. -/
def forwardBranch (cfg : Config) (s : NavState) (freeCells : List (Int × Int)) (m1 : Int → Int → Int) :
    NavState :=
  let nc := (manhattan_nearest_cell_to_target (cfg.xend, cfg.yend) freeCells).getLastD (0, 0)
  let m2 :=
    if m1 s.cellY s.cellX = 1 ∨ m1 s.cellY s.cellX = 2 then m1
    else mapSet m1 s.cellY s.cellX 3
  commitMove cfg { s with finalMap := m2 } freeCells.length nc.1 nc.2

/-- The dead-end branch: bump the repeat counter (threshold check with
`break`), set `backtracking`, pop the path and move to the previous cell
(or stop if the path has a single entry).  `numFree` is `0` here since
`freeCells` is empty. -/
def deadEndBranch (cfg : Config) (s : NavState) (m1 : Int → Int → Int) : NavState :=
  let r1 := s.iterationsRepeated + 1
  let de := s.deadEnds + 1
  if maxRepeatedIteration ≤ r1 then
    { s with finalMap := m1, iterationsRepeated := r1, deadEnds := de, unachievable := true }
  else if 1 < s.robotPath.length then
    let path1 := s.robotPath.dropLast
    let last_id := path1.getLastD 0
    commitMove cfg
      { s with finalMap := m1, iterationsRepeated := r1, deadEnds := de,
               backtracking := true, robotPath := path1 }
      0 ((last_id - 1).fmod cfg.xlength) ((last_id - 1).fdiv cfg.xlength)
  else
    { s with finalMap := m1, iterationsRepeated := r1, deadEnds := de,
             backtracking := true, unachievable := true }

/-- Whether the loop has stopped: the `while not finish and not
unachievable` condition, plus the frozen crash state. -/
def terminalS (s : NavState) : Bool :=
  s.finish || s.unachievable || s.errored

/-- One iteration of the navigation loop. -/
def navStep (cfg : Config) (s : NavState) : NavState :=
  if terminalS s then s
  else
    let pr := processNeighbours cfg s.robotPath s.backtracking
      (scanCandidates cfg s.cellX s.cellY) s.finalMap
    if pr.1 = [] then deadEndBranch cfg s pr.2
    else forwardBranch cfg s pr.1 pr.2

/-- The initial navigation state: maps initialised with the start (1)
then end (2) codes, path seeded with the start cell's linear index. -/
def navInit (cfg : Config) : NavState :=
  { cellX := cfg.xinit, cellY := cfg.yinit,
    lastCellX := cfg.xinit, lastCellY := cfg.yinit,
    robotPath := [cfg.yinit * cfg.xlength + cfg.xinit + 1],
    backtracking := false,
    iterationsRepeated := 0,
    finish := false, unachievable := false, errored := false,
    finalMap := mapSet (mapSet (fun _ _ => 0) cfg.yinit cfg.xinit 1) cfg.yend cfg.xend 2,
    commands := [], trace := [(cfg.xinit, cfg.yinit)], deadEnds := 0 }

/-- `fuel` iterations of the navigation loop from the initial state
(iterations past a terminal state leave it unchanged). -/
def navRun (cfg : Config) : Nat → NavState
  | 0 => navInit cfg
  | n + 1 => navStep cfg (navRun cfg n)

/-- Four-way adjacency: `b` is obtained from `a` by exactly one of the
four unit offsets used by `direction_from_cells`. -/
def adjacent (a b : Int × Int) : Prop :=
  (b.2 = a.2 - 1 ∧ b.1 = a.1) ∨ (b.1 = a.1 - 1 ∧ b.2 = a.2) ∨
    (b.1 = a.1 + 1 ∧ b.2 = a.2) ∨ (b.2 = a.2 + 1 ∧ b.1 = a.1)

/-- A linear index that encodes some in-bounds cell. -/
def goodId (cfg : Config) (id : Int) : Prop :=
  ∃ x y : Int, 0 ≤ x ∧ x < cfg.xlength ∧ 0 ≤ y ∧ y < cfg.ylength ∧
    id = y * cfg.xlength + x + 1

/-- A valid configuration: positive dimensions, in-bounds start and end. -/
def ValidCfg (cfg : Config) : Prop :=
  0 < cfg.xlength ∧ 0 < cfg.ylength ∧
    0 ≤ cfg.xinit ∧ cfg.xinit < cfg.xlength ∧ 0 ≤ cfg.yinit ∧ cfg.yinit < cfg.ylength ∧
    0 ≤ cfg.xend ∧ cfg.xend < cfg.xlength ∧ 0 ≤ cfg.yend ∧ cfg.yend < cfg.ylength

/-- `cmdsMatch tr cmds` holds when `tr` is a non-empty cell sequence and
`cmds` lists, in order, exactly the command derived by
`direction_from_cells` for each consecutive pair of `tr`. -/
def cmdsMatch : List (Int × Int) → List Int → Bool
  | [_], [] => true
  | a :: b :: rest, c :: cs => (direction_from_cells a b == some c) && cmdsMatch (b :: rest) cs
  | _, _ => false

/-- Counter/flag bookkeeping invariant of the loop, independent of the
grid geometry: the path never outgrows the iteration counter by more
than the initial entry, backtracking implies the dead-end threshold has
been passed (or the loop stopped), at most two dead-end detections can
ever happen, a live loop is below the safety cap, and `finish` means the
target was reached. -/
def InvBase (cfg : Config) (s : NavState) : Prop :=
  s.robotPath.length ≤ s.iterationsRepeated + 1 ∧
    (s.backtracking = true → maxRepeatedIteration ≤ s.iterationsRepeated ∨ terminalS s = true) ∧
    (1 ≤ s.deadEnds → s.backtracking = true ∨ terminalS s = true) ∧
    s.deadEnds ≤ 2 ∧
    (s.deadEnds = 2 → terminalS s = true) ∧
    (terminalS s = false → s.iterationsRepeated < safetyCap) ∧
    (s.finish = true → s.cellX = cfg.xend ∧ s.cellY = cfg.yend)

/-- Geometric invariant of the loop (for valid configurations): no crash
has happened, the path ends at the current cell's linear index, path
entries encode in-bounds cells, the current cell is in bounds, the path
is an adjacency chain until backtracking starts, and the ghost trace /
commands agree via `direction_from_cells`. -/
def InvGeo (cfg : Config) (s : NavState) : Prop :=
  s.errored = false ∧
    s.robotPath.getLast? = some (encodeId cfg s.cellX s.cellY) ∧
    (∀ id ∈ s.robotPath, goodId cfg id) ∧
    (0 ≤ s.cellX ∧ s.cellX < cfg.xlength ∧ 0 ≤ s.cellY ∧ s.cellY < cfg.ylength) ∧
    (s.backtracking = false →
      List.Chain' (fun i j => adjacent (decodeCell cfg i) (decodeCell cfg j)) s.robotPath) ∧
    s.trace.getLast? = some (s.cellX, s.cellY) ∧
    cmdsMatch s.trace s.commands = true ∧
    (∀ c ∈ s.commands, c = 0 ∨ c = 1 ∨ c = 2 ∨ c = 3)

/-- Experiment 1 of the script: 4x4 map, start (2,0), end (0,3), one
obstacle at linear index 11. -/
def cfgTest1 : Config :=
  { xlength := 4, ylength := 4, xinit := 2, yinit := 0, xend := 0, yend := 3,
    obstacles := [11] }

/-- A 3x1 corridor whose far cell is an obstacle: one forward step, then
dead ends.  Used to exercise the dead-end/backtracking branch. -/
def cfgCorridor : Config :=
  { xlength := 3, ylength := 1, xinit := 0, yinit := 0, xend := 2, yend := 0,
    obstacles := [3] }

/-- A 2x2 obstacle-free grid: the start cell is departed with two free
neighbours, so it is marked as a crossroad. -/
def cfgSquare : Config :=
  { xlength := 2, ylength := 2, xinit := 0, yinit := 0, xend := 1, yend := 1,
    obstacles := [] }

/-! ## Nearest-cell selection: characterisation -/

lemma mdist_nonneg (t c : Int × Int) : 0 ≤ mdist t c := by
  unfold mdist
  positivity

lemma getLastD_mem {α : Type} (l : List α) (d : α) (h : l ≠ []) : l.getLastD d ∈ l := by
  induction l with
  | nil => exact absurd rfl h
  | cons a l ih =>
    cases l with
    | nil => simp
    | cons b l' => simpa using Or.inr (ih (by simp))

lemma foldl_min_le_init (l : List Int) (a : Int) : l.foldl min a ≤ a := by
  induction l generalizing a with
  | nil => simp
  | cons x l ih => exact le_trans (ih (min a x)) (min_le_left _ _)

lemma foldl_min_min (l : List Int) (a b : Int) :
    l.foldl min (min a b) = min a (l.foldl min b) := by
  induction l generalizing b with
  | nil => simp
  | cons x l ih =>
    simp only [List.foldl_cons]
    rw [min_assoc, ih]

lemma foldl_min_le_mem {l : List Int} {x : Int} (h : x ∈ l) (a : Int) :
    l.foldl min a ≤ x := by
  induction l generalizing a with
  | nil => simp at h
  | cons y l ih =>
    rcases List.mem_cons.1 h with rfl | h'
    · exact le_trans (foldl_min_le_init l (min a x)) (min_le_right _ _)
    · exact ih h' (min a y)

lemma foldl_min_choice (l : List Int) (a : Int) :
    l.foldl min a = a ∨ l.foldl min a ∈ l := by
  induction l generalizing a with
  | nil => simp
  | cons x l ih =>
    simp only [List.foldl_cons]
    rcases ih (min a x) with h | h
    · rcases min_cases a x with ⟨h2, _⟩ | ⟨h2, _⟩
      · exact Or.inl (h.trans h2)
      · exact Or.inr (by rw [h, h2]; exact List.mem_cons_self _ _)
    · exact Or.inr (List.mem_cons_of_mem _ h)

/-- Closed form of the accumulator loop: once a non-negative running
minimum `nd` is established, the result keeps `acc` exactly when no
strictly smaller distance appears in `rest`, followed by the cells of
`rest` achieving the combined minimum, in order. -/
lemma mnGo_eq (t : Int × Int) (rest : List (Int × Int)) :
    ∀ (acc : List (Int × Int)) (nd : Int), 0 ≤ nd →
      mnGo t rest acc nd =
        (if (rest.map (mdist t)).foldl min nd = nd then acc else [])
          ++ rest.filter (fun c => decide (mdist t c = (rest.map (mdist t)).foldl min nd)) := by
  induction rest with
  | nil => intro acc nd _; simp [mnGo]
  | cons c cs ih =>
    intro acc nd hnd
    have hd := mdist_nonneg t c
    rcases lt_trichotomy (mdist t c) nd with hlt | heq | hgt
    · -- a strictly smaller distance: the accumulator is reset to `[c]`
      simp only [mnGo]
      rw [if_pos (Or.inr (le_of_lt hlt) : nd = -1 ∨ mdist t c ≤ nd),
        if_neg (by omega : ¬ mdist t c = nd)]
      rw [ih [c] (mdist t c) hd]
      have hMr := foldl_min_le_init (cs.map (mdist t)) (mdist t c)
      have hMval : ((c :: cs).map (mdist t)).foldl min nd
          = (cs.map (mdist t)).foldl min (mdist t c) := by
        simp only [List.map_cons, List.foldl_cons]
        rw [foldl_min_min]
        exact min_eq_right (by omega)
      rw [hMval]
      rw [if_neg (by omega : ¬ (cs.map (mdist t)).foldl min (mdist t c) = nd)]
      rw [List.nil_append, List.filter_cons]
      by_cases hc : (cs.map (mdist t)).foldl min (mdist t c) = mdist t c
      · rw [if_pos hc, if_pos (decide_eq_true hc.symm)]
        rfl
      · rw [if_neg hc, if_neg (ne_true_of_eq_false (decide_eq_false
          (show ¬ mdist t c = (cs.map (mdist t)).foldl min (mdist t c) from fun h => hc h.symm)))]
        rfl
    · -- an equal distance: `c` is appended to the accumulator
      simp only [mnGo]
      rw [if_pos (Or.inr (le_of_eq heq) : nd = -1 ∨ mdist t c ≤ nd), if_pos heq]
      rw [ih (acc ++ [c]) (mdist t c) hd, heq]
      have hMval : ((c :: cs).map (mdist t)).foldl min nd
          = (cs.map (mdist t)).foldl min nd := by
        simp only [List.map_cons, List.foldl_cons, heq, min_self]
      rw [hMval, List.filter_cons]
      by_cases hc : (cs.map (mdist t)).foldl min nd = nd
      · rw [if_pos hc, if_pos hc, if_pos (decide_eq_true (heq.trans hc.symm))]
        simp
      · rw [if_neg hc, if_neg hc,
          if_neg (ne_true_of_eq_false (decide_eq_false
            (show ¬ mdist t c = (cs.map (mdist t)).foldl min nd by omega)))]
    · -- a strictly larger distance: `c` is skipped
      simp only [mnGo]
      rw [if_neg (by push_neg; omega : ¬ (nd = -1 ∨ mdist t c ≤ nd))]
      rw [ih acc nd hnd]
      have hMr := foldl_min_le_init (cs.map (mdist t)) nd
      have hMval : ((c :: cs).map (mdist t)).foldl min nd
          = (cs.map (mdist t)).foldl min nd := by
        simp only [List.map_cons, List.foldl_cons]
        rw [min_eq_left (by omega)]
      rw [hMval, List.filter_cons,
        if_neg (ne_true_of_eq_false (decide_eq_false
          (show ¬ mdist t c = (cs.map (mdist t)).foldl min nd by omega)))]

/-- `manhattan_nearest_cell_to_target` returns exactly the cells of its
input achieving the minimum Manhattan distance to the target, in input
order. -/
lemma mn_spec (t : Int × Int) (cells : List (Int × Int)) :
    manhattan_nearest_cell_to_target t cells =
      cells.filter (fun c => decide (∀ c' ∈ cells, mdist t c ≤ mdist t c')) := by
  cases cells with
  | nil => rfl
  | cons c cs =>
    have hd := mdist_nonneg t c
    have hstep : manhattan_nearest_cell_to_target t (c :: cs) = mnGo t cs [c] (mdist t c) := by
      simp only [manhattan_nearest_cell_to_target, mnGo]
      rw [if_pos (Or.inl trivial : True ∨ mdist t c ≤ -1),
        if_neg (show ¬ mdist t c = -1 by omega)]
    rw [hstep, mnGo_eq t cs [c] (mdist t c) hd]
    set M := (cs.map (mdist t)).foldl min (mdist t c) with hM
    have hlbc : M ≤ mdist t c := foldl_min_le_init _ _
    have hlb : ∀ c' ∈ c :: cs, M ≤ mdist t c' := by
      intro c' hc'
      rcases List.mem_cons.1 hc' with rfl | h'
      · exact hlbc
      · exact foldl_min_le_mem (List.mem_map_of_mem (mdist t) h') _
    have hatt : ∃ y ∈ c :: cs, mdist t y = M := by
      rcases foldl_min_choice (cs.map (mdist t)) (mdist t c) with h | h
      · exact ⟨c, List.mem_cons_self _ _, h.symm⟩
      · rcases List.mem_map.1 h with ⟨y, hy, hy2⟩
        exact ⟨y, List.mem_cons_of_mem _ hy, hy2⟩
    have hiff : ∀ x ∈ c :: cs, (mdist t x = M) ↔ (∀ c' ∈ c :: cs, mdist t x ≤ mdist t c') := by
      intro x hx
      constructor
      · intro he c' hc'; rw [he]; exact hlb c' hc'
      · intro hle
        rcases hatt with ⟨y, hy, hy2⟩
        have h1 := hle y hy
        have h2 := hlb x hx
        omega
    have hcongr : (c :: cs).filter (fun x => decide (mdist t x = M))
        = (c :: cs).filter (fun x => decide (∀ c' ∈ c :: cs, mdist t x ≤ mdist t c')) := by
      apply List.filter_congr
      intro x hx
      exact decide_eq_decide.mpr (hiff x hx)
    rw [← hcongr, List.filter_cons]
    by_cases hc : M = mdist t c
    · rw [if_pos hc, if_pos (decide_eq_true hc.symm)]
      rfl
    · rw [if_neg hc, if_neg (ne_true_of_eq_false (decide_eq_false
        (show ¬ mdist t c = M from fun h => hc h.symm)))]
      rfl

/-- Some cell of a non-empty list attains a minimal distance among its
members. -/
lemma exists_min_cell (t : Int × Int) (c : Int × Int) (cs : List (Int × Int)) :
    ∃ x ∈ c :: cs, ∀ c' ∈ c :: cs, mdist t x ≤ mdist t c' := by
  have hlb : ∀ c' ∈ c :: cs, (cs.map (mdist t)).foldl min (mdist t c) ≤ mdist t c' := by
    intro c' hc'
    rcases List.mem_cons.1 hc' with rfl | h'
    · exact foldl_min_le_init _ _
    · exact foldl_min_le_mem (List.mem_map_of_mem (mdist t) h') _
  rcases foldl_min_choice (cs.map (mdist t)) (mdist t c) with h | h
  · exact ⟨c, List.mem_cons_self _ _, fun c' hc' => h ▸ hlb c' hc'⟩
  · rcases List.mem_map.1 h with ⟨y, hy, hy2⟩
    exact ⟨y, List.mem_cons_of_mem _ hy, fun c' hc' => hy2 ▸ hlb c' hc'⟩

/-- The selection result is non-empty whenever the input is. -/
lemma mn_ne_nil (t : Int × Int) (cells : List (Int × Int)) (h : cells ≠ []) :
    manhattan_nearest_cell_to_target t cells ≠ [] := by
  rw [mn_spec]
  cases cells with
  | nil => exact absurd rfl h
  | cons c cs =>
    intro hemp
    rcases exists_min_cell t c cs with ⟨x, hx, hx2⟩
    have hmem : x ∈ (c :: cs).filter
        (fun c0 => decide (∀ c' ∈ c :: cs, mdist t c0 ≤ mdist t c')) := by
      rw [List.mem_filter]
      exact ⟨hx, by simpa using hx2⟩
    rw [hemp] at hmem
    simp at hmem

/-- Members of the selection are members of the input. -/
lemma mn_subset {t : Int × Int} {cells : List (Int × Int)} {x : Int × Int}
    (h : x ∈ manhattan_nearest_cell_to_target t cells) : x ∈ cells := by
  rw [mn_spec] at h
  exact (List.mem_filter.1 h).1

/-! ## Direction derivation and adjacency -/

lemma direction_ne_none_iff (a b : Int × Int) :
    direction_from_cells a b ≠ none ↔ adjacent a b := by
  unfold direction_from_cells adjacent
  split_ifs with h1 h2 h3 h4
  · simpa using Or.inl h1
  · simpa using Or.inr (Or.inl h2)
  · simpa using Or.inr (Or.inr (Or.inl h3))
  · simpa using Or.inr (Or.inr (Or.inr h4))
  · simp only [ne_eq, not_true_eq_false, false_iff]
    tauto

lemma adjacent_symm {a b : Int × Int} (h : adjacent a b) : adjacent b a := by
  unfold adjacent at h ⊢
  omega

lemma adjacent_ne {a b : Int × Int} (h : adjacent a b) : b ≠ a := by
  intro he
  subst he
  unfold adjacent at h
  omega

lemma direction_some_valid {a b : Int × Int} {c : Int}
    (h : direction_from_cells a b = some c) : c = 0 ∨ c = 1 ∨ c = 2 ∨ c = 3 := by
  unfold direction_from_cells at h
  split_ifs at h <;> simp at h <;> omega

/-! ## Neighbour scan -/

lemma mem_scanCandidates {cfg : Config} {x y : Int} {c : Int × Int}
    (h : c ∈ scanCandidates cfg x y) :
    (c = (x, y - 1) ∧ 0 ≤ y - 1) ∨ (c = (x - 1, y) ∧ 0 ≤ x - 1) ∨
      (c = (x + 1, y) ∧ x + 1 < cfg.xlength) ∨ (c = (x, y + 1) ∧ y + 1 < cfg.ylength) := by
  unfold scanCandidates at h
  rcases List.mem_append.1 h with h' | h4
  · rcases List.mem_append.1 h' with h'' | h3
    · rcases List.mem_append.1 h'' with h1 | h2
      · by_cases hc : 0 ≤ y - 1
        · rw [if_pos hc] at h1
          simp at h1
          exact Or.inl ⟨h1, hc⟩
        · rw [if_neg hc] at h1
          simp at h1
      · by_cases hc : 0 ≤ x - 1
        · rw [if_pos hc] at h2
          simp at h2
          exact Or.inr (Or.inl ⟨h2, hc⟩)
        · rw [if_neg hc] at h2
          simp at h2
    · by_cases hc : x + 1 < cfg.xlength
      · rw [if_pos hc] at h3
        simp at h3
        exact Or.inr (Or.inr (Or.inl ⟨h3, hc⟩))
      · rw [if_neg hc] at h3
        simp at h3
  · by_cases hc : y + 1 < cfg.ylength
    · rw [if_pos hc] at h4
      simp at h4
      exact Or.inr (Or.inr (Or.inr ⟨h4, hc⟩))
    · rw [if_neg hc] at h4
      simp at h4

lemma scanCandidates_adjacent {cfg : Config} {x y : Int} {c : Int × Int}
    (h : c ∈ scanCandidates cfg x y) : adjacent (x, y) c := by
  rcases mem_scanCandidates h with ⟨rfl, _⟩ | ⟨rfl, _⟩ | ⟨rfl, _⟩ | ⟨rfl, _⟩ <;>
    · unfold adjacent
      simp

lemma scanCandidates_bounds {cfg : Config} {x y : Int} {c : Int × Int}
    (hb : 0 ≤ x ∧ x < cfg.xlength ∧ 0 ≤ y ∧ y < cfg.ylength)
    (h : c ∈ scanCandidates cfg x y) :
    0 ≤ c.1 ∧ c.1 < cfg.xlength ∧ 0 ≤ c.2 ∧ c.2 < cfg.ylength := by
  rcases mem_scanCandidates h with ⟨rfl, hc⟩ | ⟨rfl, hc⟩ | ⟨rfl, hc⟩ | ⟨rfl, hc⟩ <;>
    · simp only []
      omega

lemma scanCandidates_ne_self {cfg : Config} {x y : Int} {c : Int × Int}
    (h : c ∈ scanCandidates cfg x y) : ¬ (y = c.2 ∧ x = c.1) := by
  rcases mem_scanCandidates h with ⟨rfl, _⟩ | ⟨rfl, _⟩ | ⟨rfl, _⟩ | ⟨rfl, _⟩ <;>
    · simp only []
      omega

/-! ## Neighbour classification pass -/

lemma processNeighbours_free_mem {cfg : Config} {path : List Int} {bt : Bool} :
    ∀ (cands : List (Int × Int)) (m : Int → Int → Int) (p : Int × Int),
      p ∈ (processNeighbours cfg path bt cands m).1 →
        p ∈ cands ∧ (p.2 * cfg.xlength + p.1 + 1) ∉ cfg.obstacles ∧
          (p.2 * cfg.xlength + p.1 + 1) ∉ path ∧ bt = false := by
  intro cands
  induction cands with
  | nil => intro m p h; simp [processNeighbours] at h
  | cons a rest ih =>
    rcases a with ⟨nx, ny⟩
    intro m p h
    simp only [processNeighbours] at h
    by_cases h1 : ny * cfg.xlength + nx + 1 ∈ cfg.obstacles
    · rw [if_pos h1] at h
      rcases ih _ p h with ⟨hm, h2, h3, h4⟩
      exact ⟨List.mem_cons_of_mem _ hm, h2, h3, h4⟩
    · rw [if_neg h1] at h
      by_cases h2 : (ny * cfg.xlength + nx + 1 ∉ path) ∧ bt = false
      · rw [if_pos h2] at h
        simp only [List.mem_cons] at h
        rcases h with rfl | h
        · exact ⟨List.mem_cons_self _ _, h1, h2.1, h2.2⟩
        · rcases ih _ p h with ⟨hm, h2', h3, h4⟩
          exact ⟨List.mem_cons_of_mem _ hm, h2', h3, h4⟩
      · rw [if_neg h2] at h
        rcases ih _ p h with ⟨hm, h2', h3, h4⟩
        exact ⟨List.mem_cons_of_mem _ hm, h2', h3, h4⟩

lemma processNeighbours_bt_empty {cfg : Config} {path : List Int} :
    ∀ (cands : List (Int × Int)) (m : Int → Int → Int),
      (processNeighbours cfg path true cands m).1 = [] := by
  intro cands
  induction cands with
  | nil => intro m; simp [processNeighbours]
  | cons a rest ih =>
    rcases a with ⟨nx, ny⟩
    intro m
    simp only [processNeighbours]
    by_cases h1 : ny * cfg.xlength + nx + 1 ∈ cfg.obstacles
    · rw [if_pos h1]
      exact ih _
    · rw [if_neg h1]
      rw [if_neg (by simp : ¬ ((ny * cfg.xlength + nx + 1 ∉ path) ∧ true = false))]
      exact ih _

/-- Positions not scanned (or scanned but whose linear index is not an
obstacle and whose value is not `0`) are only ever written through the
two guarded writes, so the map value at a position not named by any
candidate is unchanged. -/
lemma processNeighbours_untouched {cfg : Config} {path : List Int} {bt : Bool} :
    ∀ (cands : List (Int × Int)) (m : Int → Int → Int) (y x : Int),
      (∀ c ∈ cands, ¬ (y = c.2 ∧ x = c.1)) →
        (processNeighbours cfg path bt cands m).2 y x = m y x := by
  intro cands
  induction cands with
  | nil => intro m y x _; simp [processNeighbours]
  | cons a rest ih =>
    rcases a with ⟨nx, ny⟩
    intro m y x hc
    have hhd : ¬ (y = ny ∧ x = nx) := by
      have := hc (nx, ny) (List.mem_cons_self _ _)
      simpa using this
    have htl : ∀ c ∈ rest, ¬ (y = c.2 ∧ x = c.1) :=
      fun c hcm => hc c (List.mem_cons_of_mem _ hcm)
    simp only [processNeighbours]
    by_cases h1 : ny * cfg.xlength + nx + 1 ∈ cfg.obstacles
    · rw [if_pos h1, ih _ _ _ htl]
      simp [mapSet, hhd]
    · rw [if_neg h1]
      by_cases h2 : (ny * cfg.xlength + nx + 1 ∉ path) ∧ bt = false
      · rw [if_pos h2]
        simp only []
        rw [ih _ _ _ htl]
        by_cases h3 : m ny nx = 0
        · rw [if_pos h3]
          simp [mapSet, hhd]
        · rw [if_neg h3]
      · rw [if_neg h2]
        exact ih _ _ _ htl

/-- The classification pass can only turn a position holding the
end code `2` into `2` itself (it writes `6` only at obstacle linear
indices and `5` only over `0`).  Stated for a position whose linear
index is not an obstacle. -/
lemma processNeighbours_keep_two {cfg : Config} {path : List Int} {bt : Bool} :
    ∀ (cands : List (Int × Int)) (m : Int → Int → Int) (y x : Int),
      (y * cfg.xlength + x + 1) ∉ cfg.obstacles →
        m y x = 2 →
        (processNeighbours cfg path bt cands m).2 y x = 2 := by
  intro cands
  induction cands with
  | nil => intro m y x _ hv; simpa [processNeighbours] using hv
  | cons a rest ih =>
    rcases a with ⟨nx, ny⟩
    intro m y x hob hv
    simp only [processNeighbours]
    by_cases h1 : ny * cfg.xlength + nx + 1 ∈ cfg.obstacles
    · rw [if_pos h1]
      apply ih _ _ _ hob
      by_cases hhd : y = ny ∧ x = nx
      · exfalso
        rcases hhd with ⟨rfl, rfl⟩
        exact hob h1
      · simpa [mapSet, hhd] using hv
    · rw [if_neg h1]
      by_cases h2 : (ny * cfg.xlength + nx + 1 ∉ path) ∧ bt = false
      · rw [if_pos h2]
        simp only []
        apply ih _ _ _ hob
        by_cases h3 : m ny nx = 0
        · rw [if_pos h3]
          by_cases hhd : y = ny ∧ x = nx
          · rcases hhd with ⟨rfl, rfl⟩
            rw [hv] at h3
            exact absurd h3 (by norm_num)
          · simpa [mapSet, hhd] using hv
        · rw [if_neg h3]
          exact hv
      · rw [if_neg h2]
        exact ih _ _ _ hob hv

/-! ## Linear index round trip -/

lemma encode_decode (cfg : Config) (x y : Int) (hw : 0 < cfg.xlength)
    (hx0 : 0 ≤ x) (hx1 : x < cfg.xlength) :
    decodeCell cfg (y * cfg.xlength + x + 1) = (x, y) := by
  unfold decodeCell
  have harg : y * cfg.xlength + x + 1 - 1 = x + cfg.xlength * y := by ring
  rw [harg]
  have hfm : (x + cfg.xlength * y).fmod cfg.xlength = x := by
    rw [Int.fmod_eq_emod _ (le_of_lt hw)]
    rw [Int.add_mul_emod_self_left]
    exact Int.emod_eq_of_lt hx0 hx1
  have hfd : (x + cfg.xlength * y).fdiv cfg.xlength = y := by
    rw [Int.fdiv_eq_ediv _ (le_of_lt hw)]
    rw [Int.add_mul_ediv_left _ _ (ne_of_gt hw)]
    rw [Int.ediv_eq_zero_of_lt hx0 hx1]
    ring
  rw [hfm, hfd]

lemma goodId_decode {cfg : Config} {id : Int} (hw : 0 < cfg.xlength)
    (h : goodId cfg id) :
    (0 ≤ (decodeCell cfg id).1 ∧ (decodeCell cfg id).1 < cfg.xlength ∧
      0 ≤ (decodeCell cfg id).2 ∧ (decodeCell cfg id).2 < cfg.ylength) ∧
      (decodeCell cfg id).2 * cfg.xlength + (decodeCell cfg id).1 + 1 = id := by
  rcases h with ⟨x, y, hx0, hx1, hy0, hy1, rfl⟩
  rw [encode_decode cfg x y hw hx0 hx1]
  exact ⟨⟨hx0, hx1, hy0, hy1⟩, rfl⟩

/-! ## Step-level equations -/

lemma terminalS_false_iff (s : NavState) :
    terminalS s = false ↔ s.finish = false ∧ s.unachievable = false ∧ s.errored = false := by
  simp [terminalS, and_assoc]

lemma navStep_terminal {cfg : Config} {s : NavState} (h : terminalS s = true) :
    navStep cfg s = s := by
  unfold navStep
  rw [if_pos h]

lemma navStep_eq {cfg : Config} {s : NavState} (h : terminalS s = false) :
    navStep cfg s =
      if freeCellsOf cfg s = []
      then deadEndBranch cfg s
        (processNeighbours cfg s.robotPath s.backtracking
          (scanCandidates cfg s.cellX s.cellY) s.finalMap).2
      else forwardBranch cfg s (freeCellsOf cfg s)
        (processNeighbours cfg s.robotPath s.backtracking
          (scanCandidates cfg s.cellX s.cellY) s.finalMap).2 := by
  unfold navStep freeCellsOf
  rw [if_neg (by rw [h]; simp)]

lemma navRun_stable {cfg : Config} {k : Nat} (h : terminalS (navRun cfg k) = true) :
    ∀ j, navRun cfg (k + j) = navRun cfg k := by
  intro j
  induction j with
  | zero => rfl
  | succ j ih =>
    show navStep cfg (navRun cfg (k + j)) = _
    rw [ih, navStep_terminal h]

lemma commitMove_none_eq {cfg : Config} {s : NavState} {nf : Nat} {nx ny : Int}
    (hd : direction_from_cells (s.cellX, s.cellY) (nx, ny) = none) :
    commitMove cfg s nf nx ny = { s with errored := true } := by
  unfold commitMove
  rw [hd]

lemma commitMove_some_fields {cfg : Config} {s : NavState} {nf : Nat} {nx ny : Int} {c : Int}
    (hd : direction_from_cells (s.cellX, s.cellY) (nx, ny) = some c) :
    (commitMove cfg s nf nx ny).cellX = nx ∧
      (commitMove cfg s nf nx ny).cellY = ny ∧
      (commitMove cfg s nf nx ny).robotPath = s.robotPath ++ [ny * cfg.xlength + nx + 1] ∧
      (commitMove cfg s nf nx ny).backtracking = s.backtracking ∧
      (commitMove cfg s nf nx ny).iterationsRepeated = s.iterationsRepeated + 1 ∧
      (commitMove cfg s nf nx ny).finish
        = (if nx = cfg.xend ∧ ny = cfg.yend then true else s.finish) ∧
      (commitMove cfg s nf nx ny).unachievable
        = (if safetyCap ≤ s.iterationsRepeated + 1 then true else s.unachievable) ∧
      (commitMove cfg s nf nx ny).errored = s.errored ∧
      (commitMove cfg s nf nx ny).commands = s.commands ++ [c] ∧
      (commitMove cfg s nf nx ny).trace = s.trace ++ [(nx, ny)] ∧
      (commitMove cfg s nf nx ny).deadEnds = s.deadEnds := by
  refine ⟨?_, ?_, ?_, ?_, ?_, ?_, ?_, ?_, ?_, ?_, ?_⟩ <;>
    simp [commitMove, hd]

lemma commitMove_some_map {cfg : Config} {s : NavState} {nf : Nat} {nx ny : Int} {c : Int}
    (hd : direction_from_cells (s.cellX, s.cellY) (nx, ny) = some c) :
    (commitMove cfg s nf nx ny).finalMap =
      (let m3 := if 1 < nf then mapSet s.finalMap s.cellY s.cellX 4 else s.finalMap
       if nx = cfg.xend ∧ ny = cfg.yend then mapSet m3 ny nx 2
       else if m3 ny nx = 1 ∨ m3 ny nx = 2 then m3
       else mapSet m3 ny nx 3) := by
  simp [commitMove, hd]

lemma freeCells_bt_false {cfg : Config} {s : NavState}
    (h : freeCellsOf cfg s ≠ []) : s.backtracking = false := by
  rcases List.exists_mem_of_ne_nil _ h with ⟨p, hp⟩
  unfold freeCellsOf at hp
  exact (processNeighbours_free_mem _ _ p hp).2.2.2

/-! ## Invariant preservation: bookkeeping -/

lemma invBase_init (cfg : Config) : InvBase cfg (navInit cfg) := by
  unfold InvBase navInit terminalS safetyCap
  norm_num

lemma invBase_commit {cfg : Config} {s0 : NavState} {nf : Nat} {nx ny : Int}
    (hA : s0.robotPath.length ≤ s0.iterationsRepeated + 1)
    (hB : s0.backtracking = true → maxRepeatedIteration ≤ s0.iterationsRepeated + 1)
    (hC : 1 ≤ s0.deadEnds → s0.backtracking = true)
    (hD : s0.deadEnds ≤ 1)
    (hF : s0.finish = false) :
    InvBase cfg (commitMove cfg s0 nf nx ny) := by
  cases hd : direction_from_cells (s0.cellX, s0.cellY) (nx, ny) with
  | none =>
    rw [commitMove_none_eq hd]
    have hterm : terminalS { s0 with errored := true } = true := by simp [terminalS]
    refine ⟨hA, fun _ => Or.inr hterm, fun _ => Or.inr hterm, ?_, fun _ => hterm,
      fun h => absurd hterm (by rw [h]; simp), ?_⟩
    · show s0.deadEnds ≤ 2
      omega
    · intro h
      exact absurd (hF.symm.trans h) (by simp)
  | some c =>
    rcases commitMove_some_fields hd with ⟨f1, f2, f3, f4, f5, f6, f7, f8, f9, f10, f11⟩
    refine ⟨?_, ?_, ?_, ?_, ?_, ?_, ?_⟩
    · rw [f3, f5, List.length_append]
      simp only [List.length_cons, List.length_nil]
      omega
    · intro hb
      rw [f4] at hb
      rw [f5]
      exact Or.inl ((hB hb).trans (by omega))
    · intro hde
      rw [f11] at hde
      rw [f4]
      exact Or.inl (hC hde)
    · rw [f11]; omega
    · intro hde
      rw [f11] at hde
      omega
    · intro hterm
      rcases (terminalS_false_iff _).1 hterm with ⟨_, hun, _⟩
      rw [f7] at hun
      rw [f5]
      by_cases hcap : safetyCap ≤ s0.iterationsRepeated + 1
      · rw [if_pos hcap] at hun
        exact absurd hun (by simp)
      · omega
    · intro hfin
      rw [f6] at hfin
      rw [f1, f2]
      by_cases hend : nx = cfg.xend ∧ ny = cfg.yend
      · exact hend
      · rw [if_neg hend, hF] at hfin
        exact absurd hfin (by simp)

lemma invBase_step {cfg : Config} {s : NavState} (hs : InvBase cfg s) :
    InvBase cfg (navStep cfg s) := by
  rcases hs with ⟨b1, b2, b3, b4, b5, b6, b7⟩
  by_cases hterm : terminalS s = true
  · rw [navStep_terminal hterm]
    exact ⟨b1, b2, b3, b4, b5, b6, b7⟩
  · replace hterm : terminalS s = false := by
      cases h : terminalS s
      · rfl
      · exact absurd h hterm
    rcases (terminalS_false_iff s).1 hterm with ⟨hfin, hun, herr⟩
    have hde1 : s.deadEnds ≤ 1 := by
      rcases Nat.lt_or_ge s.deadEnds 2 with h | h
      · omega
      · have h2 : s.deadEnds = 2 := by omega
        rw [hterm] at b5
        exact absurd (b5 h2) (by simp)
    rw [navStep_eq hterm]
    by_cases hfc : freeCellsOf cfg s = []
    · -- dead-end branch
      rw [if_pos hfc]
      unfold deadEndBranch
      by_cases h1 : maxRepeatedIteration ≤ s.iterationsRepeated + 1
      · rw [if_pos h1]
        have hterm2 : terminalS
            { s with
                finalMap := (processNeighbours cfg s.robotPath s.backtracking
                  (scanCandidates cfg s.cellX s.cellY) s.finalMap).2,
                iterationsRepeated := s.iterationsRepeated + 1,
                deadEnds := s.deadEnds + 1, unachievable := true } = true := by
          simp [terminalS]
        refine ⟨?_, fun _ => Or.inr hterm2, fun _ => Or.inr hterm2, ?_, fun _ => hterm2,
          fun h => absurd hterm2 (by rw [h]; simp), ?_⟩
        · show s.robotPath.length ≤ s.iterationsRepeated + 1 + 1
          omega
        · show s.deadEnds + 1 ≤ 2
          omega
        · show s.finish = true → _
          rw [hfin]
          intro h
          exact absurd h (by simp)
      · rw [if_neg h1]
        unfold maxRepeatedIteration at h1
        by_cases h2 : 1 < s.robotPath.length
        · rw [if_pos h2]
          have hr1 : 1 ≤ s.iterationsRepeated := by omega
          apply invBase_commit
          · show s.robotPath.dropLast.length ≤ s.iterationsRepeated + 1 + 1
            rw [List.length_dropLast]
            omega
          · intro _
            show maxRepeatedIteration ≤ s.iterationsRepeated + 1 + 1
            unfold maxRepeatedIteration
            omega
          · intro _
            rfl
          · show s.deadEnds + 1 ≤ 1
            have hde0 : s.deadEnds = 0 := by
              rcases Nat.eq_zero_or_pos s.deadEnds with h | h
              · exact h
              · rcases b3 h with h' | h'
                · rcases b2 h' with h'' | h''
                  · unfold maxRepeatedIteration at h''
                    omega
                  · rw [hterm] at h''
                    exact absurd h'' (by simp)
                · rw [hterm] at h'
                  exact absurd h' (by simp)
            omega
          · exact hfin
        · rw [if_neg h2]
          have hterm2 : terminalS
              { s with
                  finalMap := (processNeighbours cfg s.robotPath s.backtracking
                    (scanCandidates cfg s.cellX s.cellY) s.finalMap).2,
                  iterationsRepeated := s.iterationsRepeated + 1,
                  deadEnds := s.deadEnds + 1,
                  backtracking := true, unachievable := true } = true := by
            simp [terminalS]
          refine ⟨?_, fun _ => Or.inr hterm2, fun _ => Or.inr hterm2, ?_, fun _ => hterm2,
            fun h => absurd hterm2 (by rw [h]; simp), ?_⟩
          · show s.robotPath.length ≤ s.iterationsRepeated + 1 + 1
            omega
          · show s.deadEnds + 1 ≤ 2
            omega
          · show s.finish = true → _
            rw [hfin]
            intro h
            exact absurd h (by simp)
    · -- forward branch
      rw [if_neg hfc]
      unfold forwardBranch
      have hbtf : s.backtracking = false := freeCells_bt_false hfc
      have hde0 : s.deadEnds = 0 := by
        rcases Nat.eq_zero_or_pos s.deadEnds with h | h
        · exact h
        · rcases b3 h with h' | h'
          · rw [hbtf] at h'
            exact absurd h' (by simp)
          · rw [hterm] at h'
            exact absurd h' (by simp)
      apply invBase_commit
      · exact b1
      · show s.backtracking = true → _
        rw [hbtf]
        intro h
        exact absurd h (by simp)
      · show 1 ≤ s.deadEnds → s.backtracking = true
        rw [hde0]
        intro h
        exact absurd h (by omega)
      · show s.deadEnds ≤ 1
        omega
      · exact hfin

lemma invBase_run (cfg : Config) : ∀ n, InvBase cfg (navRun cfg n)
  | 0 => invBase_init cfg
  | n + 1 => invBase_step (invBase_run cfg n)

/-! ## Trace/command bookkeeping -/

lemma cmdsMatch_append : ∀ (cmds : List Int) (tr : List (Int × Int)) (a b : Int × Int) (c : Int),
    cmdsMatch tr cmds = true → tr.getLast? = some a → direction_from_cells a b = some c →
      cmdsMatch (tr ++ [b]) (cmds ++ [c]) = true := by
  intro cmds
  induction cmds with
  | nil =>
    intro tr a b c hm hl hd
    match tr with
    | [] =>
      rw [show cmdsMatch [] [] = false from rfl] at hm
      exact absurd hm (by simp)
    | [x] =>
      have hx : x = a := by simpa using hl
      subst hx
      simp [cmdsMatch, hd]
    | x :: y :: tr' =>
      rw [show cmdsMatch (x :: y :: tr') [] = false from rfl] at hm
      exact absurd hm (by simp)
  | cons c0 cs ih =>
    intro tr a b c hm hl hd
    match tr with
    | [] =>
      rw [show cmdsMatch [] (c0 :: cs) = false from rfl] at hm
      exact absurd hm (by simp)
    | [x] =>
      rw [show cmdsMatch [x] (c0 :: cs) = false from rfl] at hm
      exact absurd hm (by simp)
    | x :: y :: tr' =>
      simp only [cmdsMatch, Bool.and_eq_true] at hm
      show cmdsMatch (x :: y :: (tr' ++ [b])) (c0 :: (cs ++ [c])) = true
      simp only [cmdsMatch, Bool.and_eq_true]
      refine ⟨hm.1, ?_⟩
      have hl' : (y :: tr').getLast? = some a := by
        rw [← List.getLast?_cons_cons]
        exact hl
      exact ih (y :: tr') a b c hm.2 hl' hd

lemma getLastD_of_getLast? {α : Type} {l : List α} {p : α} (d : α)
    (h : l.getLast? = some p) : l.getLastD d = p := by
  rw [List.getLastD_eq_getLast?, h]
  rfl

lemma getLast?_exists {α : Type} {l : List α} (h : l ≠ []) : ∃ x, l.getLast? = some x := by
  rcases l with _ | ⟨a, l⟩
  · exact absurd rfl h
  · exact ⟨(a :: l).getLast (by simp), List.getLast?_eq_getLast _ _⟩

lemma chain'_penult {α : Type} {R : α → α → Prop} {l : List α} {p q : α}
    (hc : List.Chain' R l) (hp : l.dropLast.getLast? = some p)
    (hq : l.getLast? = some q) : R p q := by
  have hne : l ≠ [] := by
    intro h
    rw [h] at hq
    simp at hq
  have hc2 : List.Chain' R (l.dropLast ++ [l.getLast hne]) := by
    rw [List.dropLast_append_getLast hne]
    exact hc
  rcases List.chain'_append.1 hc2 with ⟨_, _, hlink⟩
  have hr := hlink p (Option.mem_def.mpr hp) (l.getLast hne) (Option.mem_def.mpr rfl)
  have hlq : l.getLast hne = q :=
    Option.some.inj ((List.getLast?_eq_getLast l hne).symm.trans hq)
  rw [hlq] at hr
  exact hr

/-! ## Invariant preservation: geometry, trace and commands -/

lemma invGeo_commit {cfg : Config} {s0 : NavState} {nf : Nat} {nx ny : Int}
    (hv : ValidCfg cfg)
    (herr : s0.errored = false)
    (hgood : ∀ id ∈ s0.robotPath, goodId cfg id)
    (hnb : 0 ≤ nx ∧ nx < cfg.xlength ∧ 0 ≤ ny ∧ ny < cfg.ylength)
    (hadj : adjacent (s0.cellX, s0.cellY) (nx, ny))
    (hchain : s0.backtracking = false →
      List.Chain' (fun i j => adjacent (decodeCell cfg i) (decodeCell cfg j))
        (s0.robotPath ++ [ny * cfg.xlength + nx + 1]))
    (htr : s0.trace.getLast? = some (s0.cellX, s0.cellY))
    (hcm : cmdsMatch s0.trace s0.commands = true)
    (hcv : ∀ c ∈ s0.commands, c = 0 ∨ c = 1 ∨ c = 2 ∨ c = 3) :
    InvGeo cfg (commitMove cfg s0 nf nx ny) := by
  have hdir : direction_from_cells (s0.cellX, s0.cellY) (nx, ny) ≠ none :=
    (direction_ne_none_iff _ _).2 hadj
  rcases Option.ne_none_iff_exists'.mp hdir with ⟨c, hd⟩
  rcases commitMove_some_fields hd with ⟨f1, f2, f3, f4, f5, f6, f7, f8, f9, f10, f11⟩
  refine ⟨?_, ?_, ?_, ?_, ?_, ?_, ?_, ?_⟩
  · rw [f8]
    exact herr
  · rw [f3, f1, f2, List.getLast?_concat]
    rfl
  · rw [f3]
    intro id hid
    rcases List.mem_append.1 hid with h | h
    · exact hgood id h
    · have hone : id = ny * cfg.xlength + nx + 1 := by simpa using h
      exact ⟨nx, ny, hnb.1, hnb.2.1, hnb.2.2.1, hnb.2.2.2, hone⟩
  · rw [f1, f2]
    exact hnb
  · rw [f4, f3]
    exact hchain
  · rw [f10, f1, f2, List.getLast?_concat]
  · rw [f10, f9]
    exact cmdsMatch_append s0.commands s0.trace (s0.cellX, s0.cellY) (nx, ny) c hcm htr hd
  · rw [f9]
    intro c' hc'
    rcases List.mem_append.1 hc' with h | h
    · exact hcv c' h
    · have hone : c' = c := by simpa using h
      subst hone
      exact direction_some_valid hd

lemma invGeo_init {cfg : Config} (hv : ValidCfg cfg) : InvGeo cfg (navInit cfg) := by
  rcases hv with ⟨hw, hh, hx0, hx1, hy0, hy1, _⟩
  refine ⟨rfl, rfl, ?_, ⟨hx0, hx1, hy0, hy1⟩, ?_, rfl, rfl, ?_⟩
  · intro id hid
    rw [show (navInit cfg).robotPath
      = [cfg.yinit * cfg.xlength + cfg.xinit + 1] from rfl] at hid
    have hone : id = cfg.yinit * cfg.xlength + cfg.xinit + 1 := by simpa using hid
    exact ⟨cfg.xinit, cfg.yinit, hx0, hx1, hy0, hy1, hone⟩
  · intro _
    exact List.chain'_singleton _
  · intro c hc
    rw [show (navInit cfg).commands = ([] : List Int) from rfl] at hc
    simp at hc

lemma invGeo_step {cfg : Config} {s : NavState} (hv : ValidCfg cfg)
    (hbase : InvBase cfg s) (hgeo : InvGeo cfg s) : InvGeo cfg (navStep cfg s) := by
  rcases hgeo with ⟨g1, g2, g3, g4, g5, g6, g7, g8⟩
  by_cases hterm : terminalS s = true
  · rw [navStep_terminal hterm]
    exact ⟨g1, g2, g3, g4, g5, g6, g7, g8⟩
  · replace hterm : terminalS s = false := by
      cases h : terminalS s
      · rfl
      · exact absurd h hterm
    rw [navStep_eq hterm]
    by_cases hfc : freeCellsOf cfg s = []
    · rw [if_pos hfc]
      unfold deadEndBranch
      by_cases h1 : maxRepeatedIteration ≤ s.iterationsRepeated + 1
      · rw [if_pos h1]
        exact ⟨g1, g2, g3, g4, g5, g6, g7, g8⟩
      · rw [if_neg h1]
        by_cases h2 : 1 < s.robotPath.length
        · rw [if_pos h2]
          have hbtf : s.backtracking = false := by
            cases hb : s.backtracking
            · rfl
            · rcases hbase.2.1 hb with h' | h'
              · exact absurd (h'.trans (Nat.le_succ _)) h1
              · rw [hterm] at h'
                exact absurd h' (by simp)
          have hne1 : s.robotPath.dropLast ≠ [] := by
            intro h
            have hl := List.length_dropLast s.robotPath
            rw [h] at hl
            simp at hl
            omega
          rcases getLast?_exists hne1 with ⟨p, hp⟩
          have hpmem : p ∈ s.robotPath := by
            have hmem : p ∈ s.robotPath.dropLast := by
              have hgl := getLastD_of_getLast? p hp
              rw [← hgl]
              exact getLastD_mem _ _ hne1
            exact (List.dropLast_sublist s.robotPath).subset hmem
          rcases goodId_decode hv.1 (g3 p hpmem) with ⟨hdb, hdenc⟩
          have hlastid : s.robotPath.dropLast.getLastD 0 = p := getLastD_of_getLast? 0 hp
          have hadj0 : adjacent (decodeCell cfg p)
              (decodeCell cfg (encodeId cfg s.cellX s.cellY)) := by
            apply chain'_penult (g5 hbtf) hp
            exact g2
          have hdec_cur : decodeCell cfg (encodeId cfg s.cellX s.cellY)
              = (s.cellX, s.cellY) :=
            encode_decode cfg s.cellX s.cellY hv.1 g4.1 g4.2.1
          rw [hdec_cur] at hadj0
          have hadj : adjacent (s.cellX, s.cellY) (decodeCell cfg p) := adjacent_symm hadj0
          dsimp only
          rw [hlastid]
          apply invGeo_commit hv
          · exact g1
          · intro id hid
            exact g3 id ((List.dropLast_sublist s.robotPath).subset hid)
          · exact hdb
          · exact hadj
          · intro h
            simp at h
          · exact g6
          · exact g7
          · exact g8
        · rw [if_neg h2]
          exact ⟨g1, g2, g3, g4, fun h => absurd h (by simp), g6, g7, g8⟩
    · rw [if_neg hfc]
      unfold forwardBranch
      have hbtf : s.backtracking = false := freeCells_bt_false hfc
      have hmn_ne := mn_ne_nil (cfg.xend, cfg.yend) _ hfc
      generalize hnc : (manhattan_nearest_cell_to_target (cfg.xend, cfg.yend)
        (freeCellsOf cfg s)).getLastD (0, 0) = nc
      have hmem : nc ∈ freeCellsOf cfg s := by
        rw [← hnc]
        exact mn_subset (getLastD_mem _ _ hmn_ne)
      rcases processNeighbours_free_mem _ _ nc hmem with ⟨hcand, hobs, hpathm, _⟩
      have hadj : adjacent (s.cellX, s.cellY) nc := scanCandidates_adjacent hcand
      have hnb := scanCandidates_bounds g4 hcand
      apply invGeo_commit hv
      · exact g1
      · exact g3
      · exact hnb
      · exact hadj
      · intro _
        rw [List.chain'_append]
        refine ⟨g5 hbtf, List.chain'_singleton _, ?_⟩
        intro x hx y hy
        have hx' : x = encodeId cfg s.cellX s.cellY := by
          rw [Option.mem_def, g2] at hx
          exact ((by simpa using hx : encodeId cfg s.cellX s.cellY = x)).symm
        have hy' : y = nc.2 * cfg.xlength + nc.1 + 1 := by
          rw [Option.mem_def] at hy
          exact ((by simpa using hy : nc.2 * cfg.xlength + nc.1 + 1 = y)).symm
        subst hx'
        subst hy'
        have e1 : decodeCell cfg (encodeId cfg s.cellX s.cellY) = (s.cellX, s.cellY) :=
          encode_decode cfg s.cellX s.cellY hv.1 g4.1 g4.2.1
        have e2 : decodeCell cfg (nc.2 * cfg.xlength + nc.1 + 1) = (nc.1, nc.2) :=
          encode_decode cfg nc.1 nc.2 hv.1 hnb.1 hnb.2.1
        rw [e1, e2]
        exact hadj
      · exact g6
      · exact g7
      · exact g8

lemma invGeo_run {cfg : Config} (hv : ValidCfg cfg) : ∀ n, InvGeo cfg (navRun cfg n)
  | 0 => invGeo_init hv
  | n + 1 => invGeo_step hv (invBase_run cfg n) (invGeo_run hv n)

/-! ## Termination within the safety cap -/

lemma commitMove_r_ge {cfg : Config} {s0 : NavState} {nf : Nat} {nx ny : Int} :
    s0.iterationsRepeated ≤ (commitMove cfg s0 nf nx ny).iterationsRepeated := by
  cases hd : direction_from_cells (s0.cellX, s0.cellY) (nx, ny) with
  | none => rw [commitMove_none_eq hd]
  | some c =>
    rw [(commitMove_some_fields hd).2.2.2.2.1]
    omega

lemma commitMove_bt {cfg : Config} {s0 : NavState} {nf : Nat} {nx ny : Int} :
    (commitMove cfg s0 nf nx ny).backtracking = s0.backtracking := by
  cases hd : direction_from_cells (s0.cellX, s0.cellY) (nx, ny) with
  | none => rw [commitMove_none_eq hd]
  | some c => exact (commitMove_some_fields hd).2.2.2.1

lemma commitMove_path_len {cfg : Config} {s0 : NavState} {nf : Nat} {nx ny : Int} :
    (commitMove cfg s0 nf nx ny).robotPath.length ≤ s0.robotPath.length + 1 := by
  cases hd : direction_from_cells (s0.cellX, s0.cellY) (nx, ny) with
  | none =>
    rw [commitMove_none_eq hd]
    show s0.robotPath.length ≤ s0.robotPath.length + 1
    omega
  | some c =>
    rw [(commitMove_some_fields hd).2.2.1, List.length_append]
    simp

lemma commitMove_path_mem {cfg : Config} {s0 : NavState} {nf : Nat} {nx ny : Int} {id : Int}
    (hid : id ∈ (commitMove cfg s0 nf nx ny).robotPath) :
    id ∈ s0.robotPath ∨ id = ny * cfg.xlength + nx + 1 := by
  cases hd : direction_from_cells (s0.cellX, s0.cellY) (nx, ny) with
  | none =>
    rw [commitMove_none_eq hd] at hid
    exact Or.inl hid
  | some c =>
    rw [(commitMove_some_fields hd).2.2.1] at hid
    rcases List.mem_append.1 hid with h | h
    · exact Or.inl h
    · exact Or.inr (by simpa using h)

lemma commitMove_r_of_ok {cfg : Config} {s0 : NavState} {nf : Nat} {nx ny : Int}
    (h : (commitMove cfg s0 nf nx ny).errored = false) :
    (commitMove cfg s0 nf nx ny).iterationsRepeated = s0.iterationsRepeated + 1 := by
  cases hd : direction_from_cells (s0.cellX, s0.cellY) (nx, ny) with
  | none =>
    rw [commitMove_none_eq hd] at h
    simp at h
  | some c => exact (commitMove_some_fields hd).2.2.2.2.1

lemma navStep_r_growth {cfg : Config} {s : NavState}
    (h2 : terminalS (navStep cfg s) = false) :
    terminalS s = false ∧ s.iterationsRepeated + 1 ≤ (navStep cfg s).iterationsRepeated := by
  by_cases hterm : terminalS s = true
  · rw [navStep_terminal hterm, hterm] at h2
    simp at h2
  · replace hterm : terminalS s = false := by
      cases h : terminalS s
      · rfl
      · exact absurd h hterm
    refine ⟨hterm, ?_⟩
    rw [navStep_eq hterm] at h2 ⊢
    by_cases hfc : freeCellsOf cfg s = []
    · rw [if_pos hfc] at h2 ⊢
      unfold deadEndBranch at h2 ⊢
      by_cases hc1 : maxRepeatedIteration ≤ s.iterationsRepeated + 1
      · rw [if_pos hc1] at h2
        simp [terminalS] at h2
      · rw [if_neg hc1] at h2 ⊢
        by_cases hc2 : 1 < s.robotPath.length
        · rw [if_pos hc2] at h2 ⊢
          dsimp only at h2 ⊢
          have herr2 := ((terminalS_false_iff _).1 h2).2.2
          rw [commitMove_r_of_ok herr2]
          exact Nat.le_succ_of_le (le_refl _)
        · rw [if_neg hc2] at h2
          simp [terminalS] at h2
    · rw [if_neg hfc] at h2 ⊢
      unfold forwardBranch at h2 ⊢
      dsimp only at h2 ⊢
      have herr2 := ((terminalS_false_iff _).1 h2).2.2
      rw [commitMove_r_of_ok herr2]

lemma navRun_r_ge (cfg : Config) :
    ∀ n, terminalS (navRun cfg n) = false → n ≤ (navRun cfg n).iterationsRepeated := by
  intro n
  induction n with
  | zero => intro _; omega
  | succ n ih =>
    intro h
    have hrw : navRun cfg (n + 1) = navStep cfg (navRun cfg n) := rfl
    rw [hrw] at h ⊢
    rcases @navStep_r_growth cfg (navRun cfg n) h with ⟨hn, hge⟩
    have := ih hn
    omega

lemma navRun_terminal_cap (cfg : Config) : terminalS (navRun cfg safetyCap) = true := by
  cases h : terminalS (navRun cfg safetyCap)
  · have h1 := navRun_r_ge cfg safetyCap h
    have h2 := (invBase_run cfg safetyCap).2.2.2.2.2.1 h
    omega
  · rfl

/-! ## The visited path stays clear of obstacles -/

lemma pathFree_step {cfg : Config} {s : NavState} (hv : ValidCfg cfg)
    (hgeo : InvGeo cfg s)
    (hI : ∀ id ∈ s.robotPath, id ∉ cfg.obstacles) :
    ∀ id ∈ (navStep cfg s).robotPath, id ∉ cfg.obstacles := by
  rcases hgeo with ⟨g1, g2, g3, g4, g5, g6, g7, g8⟩
  by_cases hterm : terminalS s = true
  · rw [navStep_terminal hterm]
    exact hI
  · replace hterm : terminalS s = false := by
      cases h : terminalS s
      · rfl
      · exact absurd h hterm
    rw [navStep_eq hterm]
    by_cases hfc : freeCellsOf cfg s = []
    · rw [if_pos hfc]
      unfold deadEndBranch
      by_cases hc1 : maxRepeatedIteration ≤ s.iterationsRepeated + 1
      · rw [if_pos hc1]
        exact hI
      · rw [if_neg hc1]
        by_cases hc2 : 1 < s.robotPath.length
        · rw [if_pos hc2]
          dsimp only
          have hne1 : s.robotPath.dropLast ≠ [] := by
            intro h
            have hl := List.length_dropLast s.robotPath
            rw [h] at hl
            simp at hl
            omega
          rcases getLast?_exists hne1 with ⟨p, hp⟩
          have hpmem : p ∈ s.robotPath := by
            have hmem : p ∈ s.robotPath.dropLast := by
              have hgl := getLastD_of_getLast? p hp
              rw [← hgl]
              exact getLastD_mem _ _ hne1
            exact (List.dropLast_sublist s.robotPath).subset hmem
          rcases goodId_decode hv.1 (g3 p hpmem) with ⟨hdb, hdenc⟩
          have hlastid : s.robotPath.dropLast.getLastD 0 = p := getLastD_of_getLast? 0 hp
          rw [hlastid]
          have hsub : ∀ id ∈ s.robotPath.dropLast, id ∉ cfg.obstacles :=
            fun id hid => hI id ((List.dropLast_sublist s.robotPath).subset hid)
          intro id hid
          rcases commitMove_path_mem hid with h | h
          · exact hsub id h
          · rw [h]
            have hdone : (p - 1).fdiv cfg.xlength * cfg.xlength
                + (p - 1).fmod cfg.xlength + 1 = p := hdenc
            rw [hdone]
            exact hI p hpmem
        · rw [if_neg hc2]
          exact hI
    · rw [if_neg hfc]
      unfold forwardBranch
      have hmn_ne := mn_ne_nil (cfg.xend, cfg.yend) _ hfc
      generalize hnc : (manhattan_nearest_cell_to_target (cfg.xend, cfg.yend)
        (freeCellsOf cfg s)).getLastD (0, 0) = nc
      have hmem : nc ∈ freeCellsOf cfg s := by
        rw [← hnc]
        exact mn_subset (getLastD_mem _ _ hmn_ne)
      rcases processNeighbours_free_mem _ _ nc hmem with ⟨hcand, hobs, hpathm, _⟩
      intro id hid
      rcases commitMove_path_mem hid with h | h
      · exact hI id h
      · rw [h]
        exact hobs

lemma pathFree_run {cfg : Config} (hv : ValidCfg cfg)
    (hstart : cfg.yinit * cfg.xlength + cfg.xinit + 1 ∉ cfg.obstacles) :
    ∀ n, ∀ id ∈ (navRun cfg n).robotPath, id ∉ cfg.obstacles := by
  intro n
  induction n with
  | zero =>
    intro id hid
    rw [show (navRun cfg 0).robotPath
      = [cfg.yinit * cfg.xlength + cfg.xinit + 1] from rfl] at hid
    have hone : id = cfg.yinit * cfg.xlength + cfg.xinit + 1 := by simpa using hid
    rw [hone]
    exact hstart
  | succ n ih => exact pathFree_step hv (invGeo_run hv n) ih

/-! ## Backtracking is absorbing -/

lemma freeCellsOf_bt {cfg : Config} {s : NavState} (h : s.backtracking = true) :
    freeCellsOf cfg s = [] := by
  unfold freeCellsOf
  rw [h]
  exact processNeighbours_bt_empty _ _

lemma bt_mono {cfg : Config} {s : NavState} (h : s.backtracking = true) :
    (navStep cfg s).backtracking = true := by
  by_cases hterm : terminalS s = true
  · rw [navStep_terminal hterm]
    exact h
  · replace hterm : terminalS s = false := by
      cases h' : terminalS s
      · rfl
      · exact absurd h' hterm
    rw [navStep_eq hterm, if_pos (freeCellsOf_bt h)]
    unfold deadEndBranch
    by_cases hc1 : maxRepeatedIteration ≤ s.iterationsRepeated + 1
    · rw [if_pos hc1]
      exact h
    · rw [if_neg hc1]
      by_cases hc2 : 1 < s.robotPath.length
      · rw [if_pos hc2]
        dsimp only
        rw [commitMove_bt]
      · rw [if_neg hc2]

lemma bt_path_len {cfg : Config} {s : NavState} (h : s.backtracking = true) :
    (navStep cfg s).robotPath.length ≤ s.robotPath.length := by
  by_cases hterm : terminalS s = true
  · rw [navStep_terminal hterm]
  · replace hterm : terminalS s = false := by
      cases h' : terminalS s
      · rfl
      · exact absurd h' hterm
    rw [navStep_eq hterm, if_pos (freeCellsOf_bt h)]
    unfold deadEndBranch
    by_cases hc1 : maxRepeatedIteration ≤ s.iterationsRepeated + 1
    · rw [if_pos hc1]
    · rw [if_neg hc1]
      by_cases hc2 : 1 < s.robotPath.length
      · rw [if_pos hc2]
        dsimp only
        have hcp : (commitMove cfg
            { s with
                finalMap := (processNeighbours cfg s.robotPath s.backtracking
                  (scanCandidates cfg s.cellX s.cellY) s.finalMap).2,
                iterationsRepeated := s.iterationsRepeated + 1,
                deadEnds := s.deadEnds + 1,
                backtracking := true, robotPath := s.robotPath.dropLast } 0
            ((s.robotPath.dropLast.getLastD 0 - 1).fmod cfg.xlength)
            ((s.robotPath.dropLast.getLastD 0 - 1).fdiv cfg.xlength)).robotPath.length
            ≤ s.robotPath.dropLast.length + 1 := commitMove_path_len
        rw [List.length_dropLast] at hcp
        calc _ ≤ s.robotPath.length - 1 + 1 := hcp
          _ ≤ s.robotPath.length := by omega
      · rw [if_neg hc2]

/-! ## The forward branch picks the last nearest cell -/

lemma commitMove_cell_eq {cfg : Config} {s0 : NavState} {nf : Nat} {nx ny : Int}
    (h : direction_from_cells (s0.cellX, s0.cellY) (nx, ny) ≠ none) :
    ((commitMove cfg s0 nf nx ny).cellX, (commitMove cfg s0 nf nx ny).cellY) = (nx, ny) := by
  rcases Option.ne_none_iff_exists'.mp h with ⟨c, hd⟩
  rcases commitMove_some_fields hd with ⟨f1, f2, _⟩
  rw [f1, f2]

lemma navStep_forward_cell {cfg : Config} {s : NavState}
    (hterm : terminalS s = false) (hfc : freeCellsOf cfg s ≠ []) :
    ((navStep cfg s).cellX, (navStep cfg s).cellY)
      = (manhattan_nearest_cell_to_target (cfg.xend, cfg.yend)
          (freeCellsOf cfg s)).getLastD (0, 0) := by
  rw [navStep_eq hterm, if_neg hfc]
  unfold forwardBranch
  dsimp only
  have hmn_ne := mn_ne_nil (cfg.xend, cfg.yend) _ hfc
  generalize hnc : (manhattan_nearest_cell_to_target (cfg.xend, cfg.yend)
    (freeCellsOf cfg s)).getLastD (0, 0) = nc
  have hmem : nc ∈ freeCellsOf cfg s := by
    rw [← hnc]
    exact mn_subset (getLastD_mem _ _ hmn_ne)
  rcases processNeighbours_free_mem _ _ nc hmem with ⟨hcand, _, _, _⟩
  have hadj : adjacent (s.cellX, s.cellY) nc := scanCandidates_adjacent hcand
  have hdir : direction_from_cells (s.cellX, s.cellY) (nc.1, nc.2) ≠ none :=
    (direction_ne_none_iff _ _).2 hadj
  apply commitMove_cell_eq
  exact hdir

/-! ## The end cell keeps classification 2 -/

lemma endCell_commit {cfg : Config} {s0 : NavState} {nf : Nat} {nx ny : Int}
    (hm : s0.finalMap cfg.yend cfg.xend = 2)
    (hcur : ¬(s0.cellX = cfg.xend ∧ s0.cellY = cfg.yend))
    (hfin : s0.finish = false) :
    ((commitMove cfg s0 nf nx ny).finish = false →
      ¬((commitMove cfg s0 nf nx ny).cellX = cfg.xend
        ∧ (commitMove cfg s0 nf nx ny).cellY = cfg.yend)) ∧
      (commitMove cfg s0 nf nx ny).finalMap cfg.yend cfg.xend = 2 := by
  cases hd : direction_from_cells (s0.cellX, s0.cellY) (nx, ny) with
  | none =>
    rw [commitMove_none_eq hd]
    exact ⟨fun _ => hcur, hm⟩
  | some c =>
    rcases commitMove_some_fields hd with ⟨f1, f2, _, _, _, f6, _⟩
    have hmap := @commitMove_some_map cfg s0 nf nx ny c hd
    constructor
    · intro hf
      rw [f6] at hf
      rw [f1, f2]
      by_cases hend : nx = cfg.xend ∧ ny = cfg.yend
      · rw [if_pos hend] at hf
        exact absurd hf (by simp)
      · exact hend
    · rw [hmap]
      dsimp only
      have hm3 : (if 1 < nf then mapSet s0.finalMap s0.cellY s0.cellX 4 else s0.finalMap)
          cfg.yend cfg.xend = 2 := by
        by_cases hnf : 1 < nf
        · rw [if_pos hnf]
          simp only [mapSet]
          rw [if_neg (fun h => hcur ⟨h.2.symm, h.1.symm⟩)]
          exact hm
        · rw [if_neg hnf]
          exact hm
      by_cases hend : nx = cfg.xend ∧ ny = cfg.yend
      · rw [if_pos hend]
        simp only [mapSet]
        rw [if_pos ⟨hend.2.symm, hend.1.symm⟩]
      · rw [if_neg hend]
        by_cases hg : (if 1 < nf then mapSet s0.finalMap s0.cellY s0.cellX 4 else s0.finalMap)
            ny nx = 1 ∨
            (if 1 < nf then mapSet s0.finalMap s0.cellY s0.cellX 4 else s0.finalMap) ny nx = 2
        · rw [if_pos hg]
          exact hm3
        · rw [if_neg hg]
          simp only [mapSet]
          rw [if_neg (fun h => hend ⟨h.2.symm, h.1.symm⟩)]
          exact hm3

lemma endCell_step {cfg : Config} {s : NavState}
    (hEnd : cfg.yend * cfg.xlength + cfg.xend + 1 ∉ cfg.obstacles)
    (hc : s.finish = false → ¬(s.cellX = cfg.xend ∧ s.cellY = cfg.yend))
    (hm : s.finalMap cfg.yend cfg.xend = 2) :
    ((navStep cfg s).finish = false →
      ¬((navStep cfg s).cellX = cfg.xend ∧ (navStep cfg s).cellY = cfg.yend)) ∧
      (navStep cfg s).finalMap cfg.yend cfg.xend = 2 := by
  by_cases hterm : terminalS s = true
  · rw [navStep_terminal hterm]
    exact ⟨hc, hm⟩
  · replace hterm : terminalS s = false := by
      cases h : terminalS s
      · rfl
      · exact absurd h hterm
    have hfin : s.finish = false := ((terminalS_false_iff s).1 hterm).1
    have hcur := hc hfin
    have hm1 : (processNeighbours cfg s.robotPath s.backtracking
        (scanCandidates cfg s.cellX s.cellY) s.finalMap).2 cfg.yend cfg.xend = 2 :=
      processNeighbours_keep_two _ _ _ _ hEnd hm
    rw [navStep_eq hterm]
    by_cases hfc : freeCellsOf cfg s = []
    · rw [if_pos hfc]
      unfold deadEndBranch
      by_cases hc1 : maxRepeatedIteration ≤ s.iterationsRepeated + 1
      · rw [if_pos hc1]
        exact ⟨fun _ => hcur, hm1⟩
      · rw [if_neg hc1]
        by_cases hc2 : 1 < s.robotPath.length
        · rw [if_pos hc2]
          dsimp only
          apply endCell_commit
          · exact hm1
          · exact hcur
          · exact hfin
        · rw [if_neg hc2]
          exact ⟨fun _ => hcur, hm1⟩
    · rw [if_neg hfc]
      unfold forwardBranch
      dsimp only
      apply endCell_commit
      · dsimp only
        by_cases hg : (processNeighbours cfg s.robotPath s.backtracking
            (scanCandidates cfg s.cellX s.cellY) s.finalMap).2 s.cellY s.cellX = 1 ∨
            (processNeighbours cfg s.robotPath s.backtracking
            (scanCandidates cfg s.cellX s.cellY) s.finalMap).2 s.cellY s.cellX = 2
        · rw [if_pos hg]
          exact hm1
        · rw [if_neg hg]
          simp only [mapSet]
          rw [if_neg (fun h => hcur ⟨h.2.symm, h.1.symm⟩)]
          exact hm1
      · exact hcur
      · exact hfin

lemma endCell_run {cfg : Config}
    (hEnd : cfg.yend * cfg.xlength + cfg.xend + 1 ∉ cfg.obstacles)
    (hne : ¬(cfg.xinit = cfg.xend ∧ cfg.yinit = cfg.yend)) :
    ∀ n, ((navRun cfg n).finish = false →
      ¬((navRun cfg n).cellX = cfg.xend ∧ (navRun cfg n).cellY = cfg.yend)) ∧
      (navRun cfg n).finalMap cfg.yend cfg.xend = 2 := by
  intro n
  induction n with
  | zero =>
    refine ⟨fun _ => hne, ?_⟩
    show mapSet (mapSet (fun _ _ => 0) cfg.yinit cfg.xinit 1) cfg.yend cfg.xend 2
      cfg.yend cfg.xend = 2
    simp [mapSet]
  | succ n ih => exact endCell_step hEnd ih.1 ih.2

/-! ## Claims -/

/-- C1: in every live iteration with a non-empty free-neighbour list, the
chosen next cell is a free neighbour at minimum Manhattan distance to the
target and, among ties, the one encountered last in the fixed scan order
Up, Left, Right, Down: `manhattan_nearest_cell_to_target` returns exactly
the minimum-distance cells of its input list in input order, and the
navigator moves to the last element of that list. -/
theorem claim_C1 (cfg : Config) (s : NavState)
    (hterm : terminalS s = false) (hfc : freeCellsOf cfg s ≠ []) :
    (∀ (t : Int × Int) (cells : List (Int × Int)),
      manhattan_nearest_cell_to_target t cells
        = cells.filter (fun c => decide (∀ c' ∈ cells, mdist t c ≤ mdist t c'))) ∧
      manhattan_nearest_cell_to_target (cfg.xend, cfg.yend) (freeCellsOf cfg s) ≠ [] ∧
      ((navStep cfg s).cellX, (navStep cfg s).cellY)
        = (manhattan_nearest_cell_to_target (cfg.xend, cfg.yend)
            (freeCellsOf cfg s)).getLastD (0, 0) ∧
      ((navStep cfg s).cellX, (navStep cfg s).cellY) ∈ freeCellsOf cfg s ∧
      ∀ c ∈ freeCellsOf cfg s,
        mdist (cfg.xend, cfg.yend) ((navStep cfg s).cellX, (navStep cfg s).cellY)
          ≤ mdist (cfg.xend, cfg.yend) c := by
  have hcell := navStep_forward_cell hterm hfc
  have hmn_ne := mn_ne_nil (cfg.xend, cfg.yend) _ hfc
  have hmem0 : ((navStep cfg s).cellX, (navStep cfg s).cellY)
      ∈ manhattan_nearest_cell_to_target (cfg.xend, cfg.yend) (freeCellsOf cfg s) := by
    rw [hcell]
    exact getLastD_mem _ _ hmn_ne
  refine ⟨fun t cells => mn_spec t cells, hmn_ne, hcell, mn_subset hmem0, ?_⟩
  intro c hc
  have hmem1 := hmem0
  rw [mn_spec] at hmem1
  have hfilter := (List.mem_filter.1 hmem1).2
  simp only [decide_eq_true_eq] at hfilter
  exact hfilter c hc

theorem claim_C1_witness :
    terminalS (navInit cfgTest1) = false ∧
      freeCellsOf cfgTest1 (navInit cfgTest1) ≠ [] ∧
      ((navStep cfgTest1 (navInit cfgTest1)).cellX,
        (navStep cfgTest1 (navInit cfgTest1)).cellY)
        ∈ freeCellsOf cfgTest1 (navInit cfgTest1) :=
  ⟨by decide, by decide,
    (claim_C1 cfgTest1 (navInit cfgTest1) (by decide) (by decide)).2.2.2.1⟩

/-- C2 (counterexample): in the corridor run the navigator becomes
Unachievable after 2 dead-end detections, not after exactly
`maxRepeatedIteration = 3` of them. -/
theorem claim_C2_counterexample :
    (navRun cfgCorridor 200).unachievable = true ∧
      (navRun cfgCorridor 200).deadEnds = 2 ∧
      (navRun cfgCorridor 200).deadEnds ≠ maxRepeatedIteration := by
  exact ⟨by decide, by decide, by decide⟩

/-- C2 (amended): the dead-end branch increments the shared counter and
transitions to Unachievable when the incremented counter is at least
`maxRepeatedIteration`; since the counter is also incremented at the end
of every completed iteration, at most two dead-end detections can ever
occur in a run, and the concrete dead-end scenario shows exactly two
before Unachievable. -/
theorem claim_C2_amended :
    (∀ (cfg : Config) (n : Nat), (navRun cfg n).deadEnds ≤ 2) ∧
      (navRun cfgCorridor 200).unachievable = true ∧
      (navRun cfgCorridor 200).deadEnds = 2 :=
  ⟨fun cfg n => (invBase_run cfg n).2.2.2.1, by decide, by decide⟩

/-- C3 (counterexample): in the 2x2 run the start cell, classified 1 at
construction, ends the run classified neither 1 nor 2: the Crossroad
marking of the departed start cell is unguarded. -/
theorem claim_C3_counterexample :
    (navInit cfgSquare).finalMap 0 0 = 1 ∧
      ¬((navRun cfgSquare 200).finalMap 0 0 = 1 ∨
        (navRun cfgSquare 200).finalMap 0 0 = 2) :=
  ⟨by decide, by decide⟩

/-- C3 (amended): the end cell's classification 2 is never overwritten
(for runs whose end cell is not an obstacle and differs from the start),
but the start cell is not protected: the unguarded Crossroad marking
reclassifies a start cell departed with more than one free neighbour
from 1 to 4. -/
theorem claim_C3_amended :
    (∀ (cfg : Config) (n : Nat),
      cfg.yend * cfg.xlength + cfg.xend + 1 ∉ cfg.obstacles →
        ¬(cfg.xinit = cfg.xend ∧ cfg.yinit = cfg.yend) →
        (navRun cfg n).finalMap cfg.yend cfg.xend = 2) ∧
      (navInit cfgSquare).finalMap 0 0 = 1 ∧
      (navRun cfgSquare 200).finalMap 0 0 = 4 :=
  ⟨fun cfg n h1 h2 => (endCell_run h1 h2 n).2, by decide, by decide⟩

theorem claim_C3_amended_witness :
    (cfgSquare.yend * cfgSquare.xlength + cfgSquare.xend + 1 ∉ cfgSquare.obstacles) ∧
      ¬(cfgSquare.xinit = cfgSquare.xend ∧ cfgSquare.yinit = cfgSquare.yend) ∧
      (navRun cfgSquare 3).finalMap cfgSquare.yend cfgSquare.xend = 2 :=
  ⟨by decide, by decide, claim_C3_amended.1 cfgSquare 3 (by decide) (by decide)⟩

/-- C4: for every valid configuration the navigation loop terminates
within the absolute safety cap of 200 iterations: after 200 steps the
state is Finished with the current cell equal to the target, or
Unachievable; it never loops forever and never crashes. -/
theorem claim_C4 (cfg : Config) (hv : ValidCfg cfg) :
    ((navRun cfg 200).finish = true ∧ (navRun cfg 200).cellX = cfg.xend
      ∧ (navRun cfg 200).cellY = cfg.yend) ∨
      (navRun cfg 200).unachievable = true := by
  have hterm : terminalS (navRun cfg 200) = true := navRun_terminal_cap cfg
  have herr : (navRun cfg 200).errored = false := (invGeo_run hv 200).1
  have hfin := (invBase_run cfg 200).2.2.2.2.2.2
  cases hf : (navRun cfg 200).finish with
  | false =>
    right
    unfold terminalS at hterm
    rw [hf, herr] at hterm
    simpa using hterm
  | true =>
    left
    exact ⟨rfl, (hfin hf).1, (hfin hf).2⟩

theorem claim_C4_witness :
    ValidCfg cfgTest1 ∧
      (((navRun cfgTest1 200).finish = true ∧ (navRun cfgTest1 200).cellX = cfgTest1.xend
        ∧ (navRun cfgTest1 200).cellY = cfgTest1.yend) ∨
        (navRun cfgTest1 200).unachievable = true) :=
  ⟨by unfold ValidCfg; decide, claim_C4 cfgTest1 (by unfold ValidCfg; decide)⟩

/-- C5: once the backtracking flag is set it stays set for the rest of
the run, no neighbour is ever again classified as free (so the forward
branch is never taken again), and the path length never grows again. -/
theorem claim_C5 (cfg : Config) (s : NavState) (h : s.backtracking = true) (n : Nat) :
    ((navStep cfg)^[n] s).backtracking = true ∧
      freeCellsOf cfg ((navStep cfg)^[n] s) = [] ∧
      ((navStep cfg)^[n + 1] s).robotPath.length
        ≤ ((navStep cfg)^[n] s).robotPath.length := by
  have hbt : ∀ m, ((navStep cfg)^[m] s).backtracking = true := by
    intro m
    induction m with
    | zero => exact h
    | succ m ih =>
      rw [Function.iterate_succ_apply']
      exact bt_mono ih
  refine ⟨hbt n, freeCellsOf_bt (hbt n), ?_⟩
  rw [Function.iterate_succ_apply']
  exact bt_path_len (hbt n)

theorem claim_C5_witness :
    (navRun cfgCorridor 2).backtracking = true ∧
      freeCellsOf cfgCorridor ((navStep cfgCorridor)^[1] (navRun cfgCorridor 2)) = [] :=
  ⟨by decide, (claim_C5 cfgCorridor (navRun cfgCorridor 2) (by decide) 1).2.1⟩

/-- C6: for every valid configuration whose start cell is not in the
obstacle set, the visited path `robotPath` never contains a linear index
belonging to the obstacle set — neither the initial entry, nor entries
appended by forward moves, nor entries re-appended by backtracking pops. -/
theorem claim_C6 (cfg : Config) (hv : ValidCfg cfg)
    (hstart : cfg.yinit * cfg.xlength + cfg.xinit + 1 ∉ cfg.obstacles) (n : Nat) :
    ∀ id ∈ (navRun cfg n).robotPath, id ∉ cfg.obstacles :=
  pathFree_run hv hstart n

theorem claim_C6_witness : (10 : Int) ∉ cfgTest1.obstacles :=
  claim_C6 cfgTest1 (by unfold ValidCfg; decide) (by decide) 5 10 (by decide)

/-- C7 (counterexample): in the corridor run two commands are emitted,
but the recorded path after the backtracking pop is `[1, 1]`: its only
consecutive pair decodes to the same cell, on which
`direction_from_cells` fails, so the emitted commands cannot be
recomputed from consecutive pairs of the recorded path. -/
theorem claim_C7_counterexample :
    (navRun cfgCorridor 200).commands = [2, 1] ∧
      (navRun cfgCorridor 200).robotPath = [1, 1] ∧
      direction_from_cells (decodeCell cfgCorridor 1) (decodeCell cfgCorridor 1) = none ∧
      cmdsMatch ((navRun cfgCorridor 200).robotPath.map (decodeCell cfgCorridor))
        (navRun cfgCorridor 200).commands = false :=
  ⟨by decide, by decide, by decide, by decide⟩

/-- C7 (amended): every emitted command is one of the four valid codes
{0,1,2,3} and equals `direction_from_cells` applied to that step's pair
of occupied cells (the movement trace); the non-adjacent-move error
branch is never reached.  The recomputation is from the occupied-cell
trajectory, not from the final `robotPath`, which loses the pre-pop cell
during backtracking. -/
theorem claim_C7_amended (cfg : Config) (hv : ValidCfg cfg) (n : Nat) :
    (navRun cfg n).errored = false ∧
      cmdsMatch (navRun cfg n).trace (navRun cfg n).commands = true ∧
      ∀ c ∈ (navRun cfg n).commands, c = 0 ∨ c = 1 ∨ c = 2 ∨ c = 3 := by
  have hgeo := invGeo_run hv n
  exact ⟨hgeo.1, hgeo.2.2.2.2.2.2.1, hgeo.2.2.2.2.2.2.2⟩

theorem claim_C7_amended_witness :
    ValidCfg cfgTest1 ∧ (navRun cfgTest1 6).errored = false ∧
      cmdsMatch (navRun cfgTest1 6).trace (navRun cfgTest1 6).commands = true :=
  ⟨by unfold ValidCfg; decide, (claim_C7_amended cfgTest1 (by unfold ValidCfg; decide) 6).1,
    (claim_C7_amended cfgTest1 (by unfold ValidCfg; decide) 6).2.1⟩

/-- C8: the concrete 4x4 run (start (2,0), end (0,3), obstacle at linear
index 11, i.e. cell (2,2)) reaches Finished, its recorded path never
contains index 11, and the number of emitted commands equals
`len(robotPath) - 1`. -/
theorem claim_C8 :
    (navRun cfgTest1 200).finish = true ∧
      (11 : Int) ∉ (navRun cfgTest1 200).robotPath ∧
      (navRun cfgTest1 200).commands.length
        = (navRun cfgTest1 200).robotPath.length - 1 :=
  ⟨by decide, by decide, by decide⟩

/-- C9: the two cell representations round-trip: decoding the 1-based
linear index `y*width + x + 1` of an in-bounds cell with the floor
modulo/division used by the backtracking branch returns exactly `(x, y)`. -/
theorem claim_C9 (cfg : Config) (x y : Int)
    (hw : 0 < cfg.xlength) (hh : 0 < cfg.ylength)
    (hx0 : 0 ≤ x) (hx1 : x < cfg.xlength) (hy0 : 0 ≤ y) (hy1 : y < cfg.ylength) :
    decodeCell cfg (encodeId cfg x y) = (x, y) :=
  encode_decode cfg x y hw hx0 hx1

theorem claim_C9_witness : decodeCell cfgTest1 (encodeId cfgTest1 1 2) = (1, 2) :=
  claim_C9 cfgTest1 1 2 (by decide) (by decide) (by decide) (by decide) (by decide) (by decide)

/-- C10: at every iteration boundary of a valid run, `robotPath` is
non-empty and its last element is the linear index `y*width + x + 1` of
the current cell. -/
theorem claim_C10 (cfg : Config) (hv : ValidCfg cfg) (n : Nat) :
    (navRun cfg n).robotPath ≠ [] ∧
      (navRun cfg n).robotPath.getLastD 0
        = (navRun cfg n).cellY * cfg.xlength + (navRun cfg n).cellX + 1 := by
  have hlast := (invGeo_run hv n).2.1
  constructor
  · intro h
    rw [h] at hlast
    simp at hlast
  · exact getLastD_of_getLast? 0 hlast

theorem claim_C10_witness :
    ValidCfg cfgTest1 ∧ (navRun cfgTest1 4).robotPath ≠ [] ∧
      (navRun cfgTest1 4).robotPath.getLastD 0
        = (navRun cfgTest1 4).cellY * cfgTest1.xlength + (navRun cfgTest1 4).cellX + 1 :=
  ⟨by unfold ValidCfg; decide, (claim_C10 cfgTest1 (by unfold ValidCfg; decide) 4).1,
    (claim_C10 cfgTest1 (by unfold ValidCfg; decide) 4).2⟩

end RTNav
